import Mathlib

/-!
# Verification of the image-conversion utility suite

Shallow embedding of the numeric/algorithmic core of the repository:

* `ImageUtils` (`src/unnamed/part_000`): file validation and the two-pass
  aspect-ratio-preserving resize clamp;
* `ImageCompressor` (`src/js/compress.js`): the quality binary search,
  the downscale fallback and the batch loop;
* `ImageCropper` (`src/image conversion/js/crop.js`): mapping the display
  crop box to source pixels;
* `WatermarkProcessor` (`src/js/watermark.js`): anchor-position arithmetic;
* `GIFProcessor` (`src/image conversion/js/gif.js`): the square-frame
  heuristic.

Quantities the code holds in JS numbers are modelled as rationals (`ℚ`);
byte sizes and pixel dimensions as naturals; `Math.round` as `round` on `ℚ`
(both compute `⌊x + 1/2⌋`).  The canvas encoder `canvas.toBlob` is an
opaque external collaborator and is modelled as an arbitrary function from
dimensions and quality to an output byte size.
-/

namespace ImageConversion

/-! ## ImageUtils (`src/unnamed/part_000`) -/

/-- `ImageUtils.supportedFormats` (constructor, line 4). -/
def supportedFormats : List String :=
  ["image/jpeg", "image/png", "image/webp", "image/avif", "image/gif"]

/-- `ImageUtils.maxFileSize` (constructor, line 5): 50 MiB. -/
def maxFileSizeLimit : ℕ := 50 * 1024 * 1024

/-- The two validation failures `ImageUtils.validateFile` can throw. -/
inductive ValidationError
  | unsupportedFormat
  | fileTooLarge
deriving DecidableEq, Repr

/-- `ImageUtils.validateFile` (lines 42-50): throw on a MIME type outside
`supportedFormats`, then throw on `size > maxFileSize`, else accept. -/
def validateFile (fileType : String) (fileSize : ℕ) : Except ValidationError Unit :=
  if fileType ∈ supportedFormats then
    if fileSize > maxFileSizeLimit then .error .fileTooLarge
    else .ok ()
  else .error .unsupportedFormat

/-- The entry sequence of every processor (`compressImage` compress.js
lines 14-28, `initCrop` crop.js lines 15-21, `addWatermark` watermark.js
lines 16-35): `validateFile` runs first and only an accepted file reaches
the decoder, modelled as a decode continuation consulted only after
validation passes. -/
def validateThenDecode {α : Type} (fileType : String) (fileSize : ℕ)
    (decode : Unit → α) : Except ValidationError α :=
  match validateFile fileType fileSize with
  | .error e => .error e
  | .ok () => .ok (decode ())

/-- The `width`/`height` locals of `ImageUtils.calculateResizedDimensions`
(lines 76-105) just before the final `Math.round`: the two-pass clamp
carried out in real arithmetic. -/
def resizedDimsRat (originalWidth originalHeight maxWidth maxHeight : ℕ)
    (keepAspectRatio : Bool) : ℚ × ℚ :=
  if keepAspectRatio then
    let aspectRatio : ℚ := (originalWidth : ℚ) / (originalHeight : ℚ)
    if maxWidth ≠ 0 ∧ maxHeight ≠ 0 then
      let pass1 : ℚ × ℚ :=
        if (originalWidth : ℚ) > (maxWidth : ℚ) then
          ((maxWidth : ℚ), (maxWidth : ℚ) / aspectRatio)
        else ((originalWidth : ℚ), (originalHeight : ℚ))
      if pass1.2 > (maxHeight : ℚ) then
        ((maxHeight : ℚ) * aspectRatio, (maxHeight : ℚ))
      else pass1
    else if maxWidth ≠ 0 then
      if (originalWidth : ℚ) > (maxWidth : ℚ) then
        ((maxWidth : ℚ), (maxWidth : ℚ) / aspectRatio)
      else ((originalWidth : ℚ), (originalHeight : ℚ))
    else
      if (originalHeight : ℚ) > (maxHeight : ℚ) then
        ((maxHeight : ℚ) * aspectRatio, (maxHeight : ℚ))
      else ((originalWidth : ℚ), (originalHeight : ℚ))
  else
    ((if maxWidth ≠ 0 then min (originalWidth : ℚ) (maxWidth : ℚ) else (originalWidth : ℚ)),
     (if maxHeight ≠ 0 then min (originalHeight : ℚ) (maxHeight : ℚ) else (originalHeight : ℚ)))

/-- `ImageUtils.calculateResizedDimensions` (lines 71-111).  `maxWidth`/
`maxHeight` are `0` when unset (JS tests them with `!maxWidth`, so `null`
and `0` behave alike).  The returned pair is the `Math.round`ed width and
height. -/
def calculateResizedDimensions (originalWidth originalHeight maxWidth maxHeight : ℕ)
    (keepAspectRatio : Bool) : ℤ × ℤ :=
  if maxWidth = 0 ∧ maxHeight = 0 then ((originalWidth : ℤ), (originalHeight : ℤ))
  else
    let wh := resizedDimsRat originalWidth originalHeight maxWidth maxHeight keepAspectRatio
    (round wh.1, round wh.2)

/-! ## ImageCompressor (`src/js/compress.js`) -/

/-- The canvas encoder (`imageUtils.canvasToBlob`, an external collaborator):
given a canvas width and height (integers — `Math.round` outputs) and an
encode quality it produces a blob of some byte size.  Nothing is assumed
about it. -/
abbrev Enc := ℤ → ℤ → ℚ → ℕ

/-- The `while (maxQuality - minQuality > 0.05)` loop of
`ImageCompressor.iterateCompression` (lines 90-101), run on a fixed canvas
(so the encoder is `ℚ → ℕ`).  Returns the final `(bestQuality, bestBlob)`
pair together with the trace of `(quality, blob size)` pairs the loop
encoded, in order.  The JS loop has no fuel parameter; `searchLoop` takes
one so the recursion is structural, and `searchLoop_fuel_stable` below shows
any fuel at least `log₂((maxQuality - minQuality)/0.05)` gives the loop's
true result, so the parameter never binds. -/
def searchLoop (enc : ℚ → ℕ) (targetSize : ℕ) :
    ℕ → ℚ → ℚ → ℚ × ℕ → (ℚ × ℕ) × List (ℚ × ℕ)
  | 0, _, _, best => (best, [])
  | fuel + 1, minQuality, maxQuality, best =>
    if maxQuality - minQuality > 1/20 then
      let quality := (minQuality + maxQuality) / 2
      let size := enc quality
      if size ≤ targetSize then
        let r := searchLoop enc targetSize fuel minQuality quality (quality, size)
        (r.1, (quality, size) :: r.2)
      else
        let r := searchLoop enc targetSize fuel quality maxQuality best
        (r.1, (quality, size) :: r.2)
    else (best, [])

/-- Fuel sufficient for `searchLoop` on the interval `[0.1, q0]`:
`⌈(q0 - 0.1) · 20⌉` iterations always suffice since `k ≤ 2^k`
(see `searchLoop_fuel_stable`). -/
def searchFuel (initialQuality : ℚ) : ℕ :=
  (⌈(initialQuality - 1/10) * 20⌉).toNat

/-- The `while (scale > 0.3)` loop of `ImageCompressor.compressByResizing`
(lines 116-131) plus the fallback encode after it (line 134).  State:
current canvas dimensions and the `scale` variable (the code multiplies the
*current* canvas by `scale` and then sets `scale *= 0.9`).  Returns the
resulting blob size together with the trace of `(width, height, blob size)`
re-encodes performed, in order.  Fuel as in `searchLoop`
(see `resizeLoop_fuel_stable`); 12 always suffices since
`0.9^12 < 0.3`. -/
def resizeLoop (enc : Enc) (targetSize : ℕ) (quality : ℚ) :
    ℕ → ℤ → ℤ → ℚ → ℕ × List (ℤ × ℤ × ℕ)
  | 0, w, h, _ => (enc w h (1/10), [])
  | fuel + 1, w, h, scale =>
    if scale > 3/10 then
      let newWidth := round ((w : ℚ) * scale)
      let newHeight := round ((h : ℚ) * scale)
      let size := enc newWidth newHeight quality
      if size ≤ targetSize then (size, [(newWidth, newHeight, size)])
      else
        let r := resizeLoop enc targetSize quality fuel newWidth newHeight (scale * (9/10))
        (r.1, (newWidth, newHeight, size) :: r.2)
    else (enc w h (1/10), [])

/-- `ImageCompressor.compressByResizing` (lines 112-135): run the downscale
loop starting from the given canvas with `scale = 0.9`. -/
def compressByResizing (enc : Enc) (w h : ℤ) (targetSize : ℕ) (quality : ℚ) : ℕ :=
  (resizeLoop enc targetSize quality 12 w h (9/10)).1

/-- `ImageCompressor.iterateCompression` (lines 75-109): encode once at the
initial quality; if that fits, return it; otherwise binary-search quality in
`[0.1, initialQuality]` and, if the recorded best still exceeds the target,
fall back to `compressByResizing` at the recorded best quality.  Returns the
final blob size. -/
def iterateCompression (enc : Enc) (w h : ℤ) (targetSize : ℕ) (initialQuality : ℚ) : ℕ :=
  let size0 := enc w h initialQuality
  if size0 ≤ targetSize then size0
  else
    let r := searchLoop (enc w h) targetSize (searchFuel initialQuality)
      (1/10) initialQuality (initialQuality, size0)
    if targetSize < r.1.2 then compressByResizing enc w h targetSize r.1.1
    else r.1.2

/-! ## Batch loops (`ImageCompressor.compressImages`, compress.js lines
138-169, and `ImageConverter.convertImages`, convert.js lines 66-97) -/

/-- The outcome record both batch methods return. -/
structure BatchOutcome (α β ε : Type) where
  results : List (α × β)
  errors : List (α × ε)
  total : ℕ
  success : ℕ
  failed : ℕ

/-- The shared `for` loop body of `compressImages`/`convertImages`: process
each file in order; a success is pushed onto `results`, a failure onto
`errors` (paired with the file it came from, as the JS error record carries
`files[i].name`), and the loop always continues. -/
def batchRun (process : α → Except ε β) : List α → List (α × β) × List (α × ε)
  | [] => ([], [])
  | f :: fs =>
    match process f with
    | .ok b => ((f, b) :: (batchRun process fs).1, (batchRun process fs).2)
    | .error e => ((batchRun process fs).1, (f, e) :: (batchRun process fs).2)

/-- `ImageCompressor.compressImages` (lines 138-169) / the identical
`ImageConverter.convertImages` (convert.js lines 66-97): run the batch loop
and assemble `{results, errors, total, success, failed}` exactly as the
code does (`total := files.length`, `success := results.length`,
`failed := errors.length`). -/
def compressImages (process : α → Except ε β) (files : List α) : BatchOutcome α β ε :=
  ⟨(batchRun process files).1, (batchRun process files).2,
   files.length, (batchRun process files).1.length, (batchRun process files).2.length⟩

/-! ## ImageCropper (`src/image conversion/js/crop.js`) -/

/-- `this.cropBox`: the crop rectangle in display-canvas coordinates. -/
structure CropBox where
  x : ℚ
  y : ℚ
  width : ℚ
  height : ℚ

/-- `ImageCropper.moveCropBox` (lines 212-226): apply a drag delta with
per-axis boundary checks; an axis that would overflow keeps its old value. -/
def moveCropBox (canvasWidth canvasHeight : ℚ) (box : CropBox)
    (deltaX deltaY : ℚ) : CropBox :=
  let newX := box.x + deltaX
  let newY := box.y + deltaY
  { x := if 0 ≤ newX ∧ newX + box.width ≤ canvasWidth then newX else box.x
    y := if 0 ≤ newY ∧ newY + box.height ≤ canvasHeight then newY else box.y
    width := box.width
    height := box.height }

/-- The source-pixel crop rectangle `(cropX, cropY, cropWidth, cropHeight)`
computed by `ImageCropper.applyCrop` (lines 277-284): independent x/y scale
factors `natural / canvas`, each coordinate rounded separately. -/
def applyCropRect (naturalWidth naturalHeight canvasWidth canvasHeight : ℕ)
    (box : CropBox) : ℤ × ℤ × ℤ × ℤ :=
  let scaleX : ℚ := (naturalWidth : ℚ) / (canvasWidth : ℚ)
  let scaleY : ℚ := (naturalHeight : ℚ) / (canvasHeight : ℚ)
  (round (box.x * scaleX), round (box.y * scaleY),
   round (box.width * scaleX), round (box.height * scaleY))

/-! ## WatermarkProcessor (`src/js/watermark.js`) -/

/-- The five anchor positions of `WatermarkProcessor.calculatePosition`
(the `default` branch of the JS `switch` coincides with `bottomRight`). -/
inductive WatermarkAnchor
  | topLeft
  | topRight
  | bottomLeft
  | bottomRight
  | center
deriving DecidableEq, Repr

/-- `WatermarkProcessor.calculatePosition` (lines 179-209): the translate
origin `(x, y)` for a watermark of size `w × h` on a `W × H` canvas. -/
def calculatePosition (canvasWidth canvasHeight watermarkWidth watermarkHeight : ℚ)
    (position : WatermarkAnchor) (padding : ℚ) : ℚ × ℚ :=
  match position with
  | .topLeft => (padding, padding + watermarkHeight)
  | .topRight => (canvasWidth - watermarkWidth - padding, padding + watermarkHeight)
  | .bottomLeft => (padding, canvasHeight - padding)
  | .bottomRight => (canvasWidth - watermarkWidth - padding, canvasHeight - padding)
  | .center => ((canvasWidth - watermarkWidth) / 2, (canvasHeight + watermarkHeight) / 2)

/-- The watermark size computed by `WatermarkProcessor.addImageWatermark`
(lines 144-155): cap the longer side at a quarter of the smaller canvas
dimension, preserving the watermark's aspect ratio. -/
def imageWatermarkSize (canvasWidth canvasHeight naturalW naturalH : ℚ) : ℚ × ℚ :=
  let maxWatermarkSize := min canvasWidth canvasHeight / 4
  let watermarkAspect := naturalW / naturalH
  if watermarkAspect > 1 then
    let w := min maxWatermarkSize naturalW
    (w, w / watermarkAspect)
  else
    let h := min maxWatermarkSize naturalH
    (h * watermarkAspect, h)

/-- The axis-aligned rectangle `(x, y, w, h)` the image watermark covers at
rotation `0`: `addImageWatermark` (lines 157-171) translates to the anchor
origin and then draws `ctx.drawImage(watermarkImg, 0, 0, w, h)`, i.e. the
pixels `[x, x+w] × [y, y+h]` (the drawn box extends *downward* from the
origin). -/
def imageWatermarkRect (canvasWidth canvasHeight naturalW naturalH : ℚ)
    (position : WatermarkAnchor) (padding : ℚ) : ℚ × ℚ × ℚ × ℚ :=
  let s := imageWatermarkSize canvasWidth canvasHeight naturalW naturalH
  let xy := calculatePosition canvasWidth canvasHeight s.1 s.2 position padding
  (xy.1, xy.2, s.1, s.2)

/-! ## GIFProcessor (`src/image conversion/js/gif.js`) -/

/-- `Math.ceil(img.naturalHeight / img.naturalWidth)`: the frame count both
`GIFProcessor.extractFrames` (line 53) and `GIFProcessor.getGIFInfo`
(line 178) compute. -/
def gifFrameCount (naturalWidth naturalHeight : ℕ) : ℤ :=
  ⌈(naturalHeight : ℚ) / (naturalWidth : ℚ)⌉

/-- One extracted frame: `extractFrames` draws the source region
`(0, i·naturalWidth, naturalWidth, naturalWidth)` onto a
`naturalWidth × naturalWidth` canvas and encodes it as `frame_<i+1>.png`. -/
structure GifFrame where
  index : ℕ
  srcY : ℤ
  width : ℕ
  height : ℕ
deriving DecidableEq, Repr

/-- The frame list built by the `for (let i = 0; i < frameCount; i++)` loop
of `GIFProcessor.extractFrames` (lines 58-77). -/
def extractFrames (naturalWidth naturalHeight : ℕ) : List GifFrame :=
  (List.range (gifFrameCount naturalWidth naturalHeight).toNat).map
    fun i => ⟨i, (i : ℤ) * (naturalWidth : ℤ), naturalWidth, naturalWidth⟩

/-- The record `GIFProcessor.getGIFInfo` (lines 173-192) resolves with
(sizes/type omitted: they are passed through from the file object). -/
structure GifInfo where
  width : ℕ
  height : ℕ
  frameCount : ℤ
  totalHeight : ℕ
deriving DecidableEq, Repr

/-- `GIFProcessor.getGIFInfo` (lines 177-186): `height` is the single-frame
height, i.e. the natural width. -/
def getGIFInfo (naturalWidth naturalHeight : ℕ) : GifInfo :=
  ⟨naturalWidth, naturalWidth, gifFrameCount naturalWidth naturalHeight, naturalHeight⟩

/-! ## Concrete instances used to settle claims -/

/-- A concrete encoder behaviour: qualities up to 0.55 encode to 50 bytes,
higher qualities to 200 bytes (size non-decreasing in quality, as real
encoders behave). -/
def encC1 : ℚ → ℕ := fun q => if q ≤ 11/20 then 50 else 200

/-- `encC1` as a full canvas encoder (size independent of dimensions). -/
def encC1Full : Enc := fun _ _ q => encC1 q

/-- A concrete encoder behaviour whose output never fits any target: every
encode is 1000000 bytes. -/
def encNeverFits : Enc := fun _ _ _ => 1000000

/-- `blob.size <= targetSize`, the early-return test of the
`compressByResizing` loop, as a Boolean predicate on trace entries. -/
def fitsTarget (targetSize : ℕ) (p : ℤ × ℤ × ℕ) : Bool :=
  decide (p.2.2 ≤ targetSize)

/-- The number of iterations the `while (scale > 0.3)` loop of
`compressByResizing` performs when no re-encode fits (the guard sequence is
independent of the canvas): `scale` is multiplied by 0.9 each iteration. -/
def scaleLoopCount : ℕ → ℚ → ℕ
  | 0, _ => 0
  | fuel + 1, scale =>
    if scale > 3/10 then scaleLoopCount fuel (scale * (9/10)) + 1 else 0

/-! ## Helper lemmas about rounding -/

/-- `round` on `ℚ` is monotone (`Math.round` and Lean's `round` both compute
`⌊x + 1/2⌋`). -/
theorem round_le_round_of_le {a b : ℚ} (h : a ≤ b) : round a ≤ round b := by
  rw [round_eq, round_eq]
  exact Int.floor_le_floor (by linarith)

theorem round_nonneg_of_nonneg {a : ℚ} (h : 0 ≤ a) : 0 ≤ round a := by
  have := round_le_round_of_le h
  simpa using this

theorem round_le_natCast {z : ℚ} {n : ℕ} (h : z ≤ (n : ℚ)) : round z ≤ (n : ℤ) := by
  have h2 := round_le_round_of_le h
  simpa [round_natCast] using h2

/-- When `mW < W`, the height `mW / (W/H)` produced by the width clamp does
not exceed the original height. -/
theorem clampedHeight_le (W H mW : ℕ) (h : (mW : ℚ) < (W : ℚ)) :
    (mW : ℚ) / ((W : ℚ) / (H : ℚ)) ≤ (H : ℚ) := by
  rcases Nat.eq_zero_or_pos H with h0 | hpos
  · subst h0; simp
  · have hW : (0 : ℚ) < (W : ℚ) := lt_of_le_of_lt (Nat.cast_nonneg mW) h
    have hH : (0 : ℚ) < (H : ℚ) := by exact_mod_cast hpos
    rw [div_div_eq_mul_div, div_le_iff hW]
    nlinarith [h.le]

/-- When `mH < H`, the width `mH * (W/H)` produced by the height clamp does
not exceed the original width. -/
theorem clampedWidth_le (W H mH : ℕ) (h : (mH : ℚ) < (H : ℚ)) :
    (mH : ℚ) * ((W : ℚ) / (H : ℚ)) ≤ (W : ℚ) := by
  have hH : (0 : ℚ) < (H : ℚ) := lt_of_le_of_lt (Nat.cast_nonneg mH) h
  rw [← mul_div_assoc, div_le_iff hH]
  nlinarith [(Nat.cast_nonneg W : (0 : ℚ) ≤ (W : ℚ)), h.le]

/-- The real-valued two-pass clamp never upscales on either axis. -/
theorem resizedDimsRat_le_original (W H mW mH : ℕ) (keep : Bool) :
    (resizedDimsRat W H mW mH keep).1 ≤ (W : ℚ) ∧
    (resizedDimsRat W H mW mH keep).2 ≤ (H : ℚ) := by
  simp only [resizedDimsRat]
  cases keep
  · constructor <;> simp only [Bool.false_eq_true, if_false] <;> split_ifs <;>
      simp [min_le_left]
  · simp only [if_true]
    by_cases h1 : mW ≠ 0 ∧ mH ≠ 0
    · simp only [if_pos h1]
      by_cases h2 : (W : ℚ) > (mW : ℚ)
      · simp only [if_pos h2]
        by_cases h3 : ((mW : ℚ), (mW : ℚ) / ((W : ℚ) / (H : ℚ))).2 > (mH : ℚ)
        · simp only [if_pos h3]
          have hmH : (mH : ℚ) < (H : ℚ) :=
            lt_of_lt_of_le h3 (clampedHeight_le W H mW h2)
          exact ⟨clampedWidth_le W H mH hmH, hmH.le⟩
        · simp only [if_neg h3]
          exact ⟨h2.le, clampedHeight_le W H mW h2⟩
      · simp only [if_neg h2]
        by_cases h3 : ((W : ℚ), (H : ℚ)).2 > (mH : ℚ)
        · simp only [if_pos h3]
          exact ⟨clampedWidth_le W H mH h3, h3.le⟩
        · simp only [if_neg h3]
          exact ⟨le_refl _, le_refl _⟩
    · simp only [if_neg h1]
      by_cases h4 : mW ≠ 0
      · simp only [if_pos h4]
        by_cases h2 : (W : ℚ) > (mW : ℚ)
        · simp only [if_pos h2]
          exact ⟨h2.le, clampedHeight_le W H mW h2⟩
        · simp only [if_neg h2]
          exact ⟨le_refl _, le_refl _⟩
      · simp only [if_neg h4]
        by_cases h3 : (H : ℚ) > (mH : ℚ)
        · simp only [if_pos h3]
          exact ⟨clampedWidth_le W H mH h3, h3.le⟩
        · simp only [if_neg h3]
          exact ⟨le_refl _, le_refl _⟩

/-- With aspect lock on, the real-valued two-pass clamp respects each max
dimension that is set. -/
theorem resizedDimsRat_le_max (W H mW mH : ℕ) :
    (mW ≠ 0 → (resizedDimsRat W H mW mH true).1 ≤ (mW : ℚ)) ∧
    (mH ≠ 0 → (resizedDimsRat W H mW mH true).2 ≤ (mH : ℚ)) := by
  simp only [resizedDimsRat, if_true]
  by_cases h1 : mW ≠ 0 ∧ mH ≠ 0
  · simp only [if_pos h1]
    by_cases h2 : (W : ℚ) > (mW : ℚ)
    · simp only [if_pos h2]
      by_cases h3 : ((mW : ℚ), (mW : ℚ) / ((W : ℚ) / (H : ℚ))).2 > (mH : ℚ)
      · simp only [if_pos h3]
        have hW : (0 : ℚ) < (W : ℚ) := lt_of_le_of_lt (Nat.cast_nonneg mW) h2
        have hH : (0 : ℚ) < (H : ℚ) := by
          by_contra hc
          push_neg at hc
          have hz : (H : ℚ) = 0 := le_antisymm hc (Nat.cast_nonneg H)
          have : ((mW : ℚ), (mW : ℚ) / ((W : ℚ) / (H : ℚ))).2 = 0 := by
            simp [hz]
          rw [this] at h3
          exact absurd (lt_of_lt_of_le h3 (Nat.cast_nonneg mH)) (lt_irrefl _)
        refine ⟨fun _ => ?_, fun _ => le_refl _⟩
        have h3' : (mH : ℚ) < (mW : ℚ) * (H : ℚ) / (W : ℚ) := by
          rwa [div_div_eq_mul_div] at h3
        rw [← mul_div_assoc, div_le_iff hH]
        rw [lt_div_iff hW] at h3'
        nlinarith
      · simp only [if_neg h3]
        push_neg at h3
        exact ⟨fun _ => le_refl _, fun _ => h3⟩
    · simp only [if_neg h2]
      push_neg at h2
      by_cases h3 : ((W : ℚ), (H : ℚ)).2 > (mH : ℚ)
      · simp only [if_pos h3]
        exact ⟨fun _ => le_trans (clampedWidth_le W H mH h3) h2, fun _ => le_refl _⟩
      · simp only [if_neg h3]
        push_neg at h3
        exact ⟨fun _ => h2, fun _ => h3⟩
  · simp only [if_neg h1]
    by_cases h4 : mW ≠ 0
    · have hmH : mH = 0 := by
        by_contra hc
        exact h1 ⟨h4, hc⟩
      simp only [if_pos h4]
      by_cases h2 : (W : ℚ) > (mW : ℚ)
      · simp only [if_pos h2]
        exact ⟨fun _ => le_refl _, fun hc => absurd hmH hc⟩
      · simp only [if_neg h2]
        push_neg at h2
        exact ⟨fun _ => h2, fun hc => absurd hmH hc⟩
    · simp only [if_neg h4]
      push_neg at h4
      by_cases h3 : (H : ℚ) > (mH : ℚ)
      · simp only [if_pos h3]
        exact ⟨fun hc => absurd h4 hc, fun _ => le_refl _⟩
      · simp only [if_neg h3]
        push_neg at h3
        exact ⟨fun hc => absurd h4 hc, fun _ => h3⟩

/-- With aspect lock on and at least one max set, the real-valued two-pass
clamp yields a pair in exactly the original W : H ratio, with positive
height. -/
theorem resizedDimsRat_aspect (W H mW mH : ℕ) (hW : 0 < W) (hH : 0 < H)
    (h0 : ¬(mW = 0 ∧ mH = 0)) :
    (resizedDimsRat W H mW mH true).1 * (H : ℚ) =
      (resizedDimsRat W H mW mH true).2 * (W : ℚ) ∧
    0 < (resizedDimsRat W H mW mH true).2 := by
  have hWq : (0 : ℚ) < (W : ℚ) := by exact_mod_cast hW
  have hHq : (0 : ℚ) < (H : ℚ) := by exact_mod_cast hH
  simp only [resizedDimsRat, if_true]
  by_cases h1 : mW ≠ 0 ∧ mH ≠ 0
  · have hmWq : (0 : ℚ) < (mW : ℚ) := by
      exact_mod_cast Nat.pos_of_ne_zero h1.1
    have hmHq : (0 : ℚ) < (mH : ℚ) := by
      exact_mod_cast Nat.pos_of_ne_zero h1.2
    simp only [if_pos h1]
    by_cases h2 : (W : ℚ) > (mW : ℚ)
    · simp only [if_pos h2]
      by_cases h3 : ((mW : ℚ), (mW : ℚ) / ((W : ℚ) / (H : ℚ))).2 > (mH : ℚ)
      · simp only [if_pos h3]
        constructor
        · field_simp
          try ring
        · exact hmHq
      · simp only [if_neg h3]
        constructor
        · field_simp
        · positivity
    · simp only [if_neg h2]
      by_cases h3 : ((W : ℚ), (H : ℚ)).2 > (mH : ℚ)
      · simp only [if_pos h3]
        constructor
        · field_simp
          try ring
        · exact hmHq
      · simp only [if_neg h3]
        exact ⟨by ring, hHq⟩
  · simp only [if_neg h1]
    by_cases h4 : mW ≠ 0
    · have hmWq : (0 : ℚ) < (mW : ℚ) := by
        exact_mod_cast Nat.pos_of_ne_zero h4
      simp only [if_pos h4]
      by_cases h2 : (W : ℚ) > (mW : ℚ)
      · simp only [if_pos h2]
        constructor
        · field_simp
        · positivity
      · simp only [if_neg h2]
        exact ⟨by ring, hHq⟩
    · have hmH : mH ≠ 0 := by
        by_contra hc
        push_neg at h4
        exact h0 ⟨h4, by simpa using hc⟩
      have hmHq : (0 : ℚ) < (mH : ℚ) := by
        exact_mod_cast Nat.pos_of_ne_zero hmH
      simp only [if_neg h4]
      by_cases h3 : (H : ℚ) > (mH : ℚ)
      · simp only [if_pos h3]
        constructor
        · field_simp
          try ring
        · exact hmHq
      · simp only [if_neg h3]
        exact ⟨by ring, hHq⟩

/-! ## Claim theorems: validation -/

/-- C9: `validateFile` accepts exactly the files whose MIME type is one of
the five supported image types and whose byte size is at most
`50 * 1024 * 1024` (inclusive); a wrong type yields the format error and an
oversize file of a supported type yields the size error, both raised by the
validator itself (which runs before any decode in every processor). -/
theorem validateFile_accepts_iff (fileType : String) (fileSize : ℕ) :
    (validateFile fileType fileSize = .ok ()
      ↔ fileType ∈ supportedFormats ∧ fileSize ≤ 50 * 1024 * 1024)
    ∧ (validateFile fileType fileSize = .error .unsupportedFormat
      ↔ fileType ∉ supportedFormats)
    ∧ (validateFile fileType fileSize = .error .fileTooLarge
      ↔ fileType ∈ supportedFormats ∧ 50 * 1024 * 1024 < fileSize)
    ∧ (∀ (α : Type) (decode : Unit → α) (e : ValidationError),
      validateFile fileType fileSize = .error e →
        validateThenDecode fileType fileSize decode = .error e) := by
  refine ⟨?_, ?_, ?_, ?_⟩
  · unfold validateFile maxFileSizeLimit
    by_cases hT : fileType ∈ supportedFormats <;>
      by_cases hS : fileSize > 50 * 1024 * 1024 <;>
        simp [hT, hS] <;> omega
  · unfold validateFile maxFileSizeLimit
    by_cases hT : fileType ∈ supportedFormats <;>
      by_cases hS : fileSize > 50 * 1024 * 1024 <;>
        simp [hT, hS] <;> omega
  · unfold validateFile maxFileSizeLimit
    by_cases hT : fileType ∈ supportedFormats <;>
      by_cases hS : fileSize > 50 * 1024 * 1024 <;>
        simp [hT, hS] <;> omega
  · intro α decode e he
    simp [validateThenDecode, he]

/-! ## Claim theorems: resize -/

/-- C10: `calculateResizedDimensions` never upscales — for every original
width/height, every combination of set (`≠ 0`) or unset (`= 0`) max
dimensions, and both settings of the aspect-ratio flag, the output width is
at most the original width and the output height at most the original
height. -/
theorem calculateResizedDimensions_no_upscale (W H mW mH : ℕ) (keep : Bool) :
    (calculateResizedDimensions W H mW mH keep).1 ≤ (W : ℤ) ∧
    (calculateResizedDimensions W H mW mH keep).2 ≤ (H : ℤ) := by
  by_cases h0 : mW = 0 ∧ mH = 0
  · simp [calculateResizedDimensions, h0]
  · have h := resizedDimsRat_le_original W H mW mH keep
    simp only [calculateResizedDimensions, if_neg h0]
    exact ⟨round_le_natCast h.1, round_le_natCast h.2⟩

/-- C3: with aspect lock on, the two-pass clamp (width first, then height)
returns dimensions that exceed neither set max dimension, and the returned
pair is the rounding (to within ±1/2 on each axis) of a real-valued pair in
exactly the original aspect ratio; in particular 2000×1000 with
maxWidth = maxHeight = 1000 yields exactly 1000×500. -/
theorem calculateResizedDimensions_two_pass_clamp (W H mW mH : ℕ)
    (hW : 0 < W) (hH : 0 < H) :
    (mW ≠ 0 → (calculateResizedDimensions W H mW mH true).1 ≤ (mW : ℤ)) ∧
    (mH ≠ 0 → (calculateResizedDimensions W H mW mH true).2 ≤ (mH : ℤ)) ∧
    (∃ w h : ℚ, 0 < h ∧ w * (H : ℚ) = h * (W : ℚ) ∧
      calculateResizedDimensions W H mW mH true = (round w, round h) ∧
      |(((calculateResizedDimensions W H mW mH true).1 : ℚ)) - w| ≤ 1/2 ∧
      |(((calculateResizedDimensions W H mW mH true).2 : ℚ)) - h| ≤ 1/2) ∧
    calculateResizedDimensions 2000 1000 1000 1000 true = (1000, 500) := by
  have hscenario : calculateResizedDimensions 2000 1000 1000 1000 true = (1000, 500) := by
    have hrat : resizedDimsRat 2000 1000 1000 1000 true = (1000, 500) := by
      norm_num [resizedDimsRat]
    norm_num [calculateResizedDimensions, hrat]
  by_cases h0 : mW = 0 ∧ mH = 0
  · refine ⟨fun hc => absurd h0.1 hc, fun hc => absurd h0.2 hc, ?_, hscenario⟩
    refine ⟨(W : ℚ), (H : ℚ), by exact_mod_cast hH, by ring, ?_, ?_, ?_⟩
    · simp [calculateResizedDimensions, h0, round_natCast]
    · simp [calculateResizedDimensions, h0, round_natCast]
    · simp [calculateResizedDimensions, h0, round_natCast]
  · have hmax := resizedDimsRat_le_max W H mW mH
    have hasp := resizedDimsRat_aspect W H mW mH hW hH h0
    have hout : calculateResizedDimensions W H mW mH true =
        (round (resizedDimsRat W H mW mH true).1,
         round (resizedDimsRat W H mW mH true).2) := by
      simp [calculateResizedDimensions, if_neg h0]
    refine ⟨?_, ?_, ?_, hscenario⟩
    · intro hmW
      rw [hout]
      exact round_le_natCast (hmax.1 hmW)
    · intro hmH
      rw [hout]
      exact round_le_natCast (hmax.2 hmH)
    · refine ⟨(resizedDimsRat W H mW mH true).1, (resizedDimsRat W H mW mH true).2,
        hasp.2, hasp.1, hout, ?_, ?_⟩
      · rw [hout]
        simpa [abs_sub_comm] using abs_sub_round (resizedDimsRat W H mW mH true).1
      · rw [hout]
        simpa [abs_sub_comm] using abs_sub_round (resizedDimsRat W H mW mH true).2

/-- Witness for C3 at the spec's own scenario 2000×1000, max 1000×1000. -/
theorem calculateResizedDimensions_two_pass_clamp_witness :
    (0 < 2000 ∧ 0 < 1000) ∧
    ((1000 ≠ 0 → (calculateResizedDimensions 2000 1000 1000 1000 true).1 ≤ (1000 : ℤ)) ∧
     (1000 ≠ 0 → (calculateResizedDimensions 2000 1000 1000 1000 true).2 ≤ (1000 : ℤ)) ∧
     (∃ w h : ℚ, 0 < h ∧ w * (1000 : ℚ) = h * (2000 : ℚ) ∧
       calculateResizedDimensions 2000 1000 1000 1000 true = (round w, round h) ∧
       |(((calculateResizedDimensions 2000 1000 1000 1000 true).1 : ℚ)) - w| ≤ 1/2 ∧
       |(((calculateResizedDimensions 2000 1000 1000 1000 true).2 : ℚ)) - h| ≤ 1/2) ∧
     calculateResizedDimensions 2000 1000 1000 1000 true = (1000, 500)) :=
  ⟨⟨by norm_num, by norm_num⟩,
   by
    have h := calculateResizedDimensions_two_pass_clamp 2000 1000 1000 1000
      (by norm_num) (by norm_num)
    exact_mod_cast h⟩

/-! ## Lemmas about the quality binary search -/

/-- Fuel stability: once the fuel covers `log₂` of the interval over 0.05,
adding more fuel does not change `searchLoop`'s result — i.e. the JS loop
terminates, within `fuel` iterations. -/
theorem searchLoop_fuel_stable (enc : ℚ → ℕ) (tgt : ℕ) :
    ∀ (fuel extra : ℕ) (minQ maxQ : ℚ) (best : ℚ × ℕ),
      maxQ - minQ ≤ (1/20) * 2 ^ fuel →
      searchLoop enc tgt (fuel + extra) minQ maxQ best =
        searchLoop enc tgt fuel minQ maxQ best := by
  intro fuel
  induction fuel with
  | zero =>
    intro extra minQ maxQ best h
    have hg : ¬ (maxQ - minQ > 1/20) := by
      push_neg
      simpa using h
    cases extra with
    | zero => rfl
    | succ e =>
      rw [Nat.zero_add]
      simp only [searchLoop]
      rw [if_neg hg]
  | succ n ih =>
    intro extra minQ maxQ best h
    have hpow : (2 : ℚ) ^ (n + 1) = 2 ^ n * 2 := pow_succ 2 n
    rw [show n + 1 + extra = (n + extra) + 1 from by omega]
    by_cases hg : maxQ - minQ > 1/20
    · simp only [searchLoop, if_pos hg]
      by_cases hs : enc ((minQ + maxQ) / 2) ≤ tgt
      · simp only [if_pos hs]
        rw [ih extra minQ ((minQ + maxQ) / 2) ((minQ + maxQ) / 2, enc ((minQ + maxQ) / 2))
          (by rw [hpow] at h; linarith)]
      · simp only [if_neg hs]
        rw [ih extra ((minQ + maxQ) / 2) maxQ best (by rw [hpow] at h; linarith)]
    · simp only [searchLoop]
      rw [if_neg hg, if_neg hg]

/-- Every quality the search loop encodes lies strictly inside the current
search interval. -/
theorem searchLoop_trace_bounds (enc : ℚ → ℕ) (tgt : ℕ) :
    ∀ (fuel : ℕ) (minQ maxQ : ℚ) (best : ℚ × ℕ) (p : ℚ × ℕ),
      p ∈ (searchLoop enc tgt fuel minQ maxQ best).2 →
      minQ < p.1 ∧ p.1 < maxQ := by
  intro fuel
  induction fuel with
  | zero =>
    intro minQ maxQ best p hp
    simp [searchLoop] at hp
  | succ n ih =>
    intro minQ maxQ best p hp
    by_cases hg : maxQ - minQ > 1/20
    · have hlt : minQ < maxQ := by linarith
      have hmid1 : minQ < (minQ + maxQ) / 2 := by linarith
      have hmid2 : (minQ + maxQ) / 2 < maxQ := by linarith
      simp only [searchLoop, if_pos hg] at hp
      by_cases hs : enc ((minQ + maxQ) / 2) ≤ tgt
      · simp only [if_pos hs, List.mem_cons] at hp
        rcases hp with hp | hp
        · subst hp
          exact ⟨hmid1, hmid2⟩
        · have := ih minQ ((minQ + maxQ) / 2) _ p hp
          exact ⟨this.1, lt_trans this.2 hmid2⟩
      · simp only [if_neg hs, List.mem_cons] at hp
        rcases hp with hp | hp
        · subst hp
          exact ⟨hmid1, hmid2⟩
        · have := ih ((minQ + maxQ) / 2) maxQ best p hp
          exact ⟨lt_trans hmid1 this.1, this.2⟩
    · simp only [searchLoop] at hp
      rw [if_neg hg] at hp
      simp at hp

/-- The pair the search loop returns is either the incoming best or a
fitting entry of its own trace. -/
theorem searchLoop_best_mem (enc : ℚ → ℕ) (tgt : ℕ) :
    ∀ (fuel : ℕ) (minQ maxQ : ℚ) (best : ℚ × ℕ),
      (searchLoop enc tgt fuel minQ maxQ best).1 = best ∨
      ((searchLoop enc tgt fuel minQ maxQ best).1 ∈
          (searchLoop enc tgt fuel minQ maxQ best).2 ∧
        (searchLoop enc tgt fuel minQ maxQ best).1.2 ≤ tgt) := by
  intro fuel
  induction fuel with
  | zero =>
    intro minQ maxQ best
    left
    rfl
  | succ n ih =>
    intro minQ maxQ best
    by_cases hg : maxQ - minQ > 1/20
    · simp only [searchLoop, if_pos hg]
      by_cases hs : enc ((minQ + maxQ) / 2) ≤ tgt
      · simp only [if_pos hs]
        right
        rcases ih minQ ((minQ + maxQ) / 2)
            ((minQ + maxQ) / 2, enc ((minQ + maxQ) / 2)) with hb | hb
        · rw [hb]
          exact ⟨List.mem_cons_self _ _, hs⟩
        · exact ⟨List.mem_cons_of_mem _ hb.1, hb.2⟩
      · simp only [if_neg hs]
        rcases ih ((minQ + maxQ) / 2) maxQ best with hb | hb
        · left
          exact hb
        · right
          exact ⟨List.mem_cons_of_mem _ hb.1, hb.2⟩
    · simp only [searchLoop, if_neg hg]
      left
      trivial

/-- If some encode in the trace fits, the returned best is a fitting trace
entry. -/
theorem searchLoop_best_fits (enc : ℚ → ℕ) (tgt : ℕ) :
    ∀ (fuel : ℕ) (minQ maxQ : ℚ) (best : ℚ × ℕ) (p : ℚ × ℕ),
      p ∈ (searchLoop enc tgt fuel minQ maxQ best).2 → p.2 ≤ tgt →
      (searchLoop enc tgt fuel minQ maxQ best).1 ∈
          (searchLoop enc tgt fuel minQ maxQ best).2 ∧
        (searchLoop enc tgt fuel minQ maxQ best).1.2 ≤ tgt := by
  intro fuel
  induction fuel with
  | zero =>
    intro minQ maxQ best p hp _
    simp [searchLoop] at hp
  | succ n ih =>
    intro minQ maxQ best p hp hfit
    by_cases hg : maxQ - minQ > 1/20
    · by_cases hs : enc ((minQ + maxQ) / 2) ≤ tgt
      · simp only [searchLoop, if_pos hg, if_pos hs]
        rcases searchLoop_best_mem enc tgt n minQ ((minQ + maxQ) / 2)
            ((minQ + maxQ) / 2, enc ((minQ + maxQ) / 2)) with hb | hb
        · rw [hb]
          exact ⟨List.mem_cons_self _ _, hs⟩
        · exact ⟨List.mem_cons_of_mem _ hb.1, hb.2⟩
      · simp only [searchLoop, if_pos hg, if_neg hs] at hp ⊢
        rcases List.mem_cons.mp hp with hph | hpt
        · exfalso
          rw [hph] at hfit
          exact hs hfit
        · have := ih ((minQ + maxQ) / 2) maxQ best p hpt hfit
          exact ⟨List.mem_cons_of_mem _ this.1, this.2⟩
    · simp only [searchLoop] at hp
      rw [if_neg hg] at hp
      simp at hp

/-- The returned best quality is at most the quality of every fitting trace
entry (each recorded fit lowers the upper bound, so later fits have lower
quality). -/
theorem searchLoop_best_le_fits (enc : ℚ → ℕ) (tgt : ℕ) :
    ∀ (fuel : ℕ) (minQ maxQ : ℚ) (best : ℚ × ℕ) (p : ℚ × ℕ),
      p ∈ (searchLoop enc tgt fuel minQ maxQ best).2 → p.2 ≤ tgt →
      (searchLoop enc tgt fuel minQ maxQ best).1.1 ≤ p.1 := by
  intro fuel
  induction fuel with
  | zero =>
    intro minQ maxQ best p hp _
    simp [searchLoop] at hp
  | succ n ih =>
    intro minQ maxQ best p hp hfit
    by_cases hg : maxQ - minQ > 1/20
    · by_cases hs : enc ((minQ + maxQ) / 2) ≤ tgt
      · simp only [searchLoop, if_pos hg, if_pos hs] at hp ⊢
        rcases List.mem_cons.mp hp with hph | hpt
        · rw [hph]
          rcases searchLoop_best_mem enc tgt n minQ ((minQ + maxQ) / 2)
              ((minQ + maxQ) / 2, enc ((minQ + maxQ) / 2)) with hb | hb
          · rw [hb]
          · exact le_of_lt (searchLoop_trace_bounds enc tgt n _ _ _ _ hb.1).2
        · exact ih minQ ((minQ + maxQ) / 2) _ p hpt hfit
      · simp only [searchLoop, if_pos hg, if_neg hs] at hp ⊢
        rcases List.mem_cons.mp hp with hph | hpt
        · exfalso
          rw [hph] at hfit
          exact hs hfit
        · exact ih ((minQ + maxQ) / 2) maxQ best p hpt hfit
    · simp only [searchLoop] at hp
      rw [if_neg hg] at hp
      simp at hp

/-- Concrete evaluation of the quality search on `encC1` with ceiling 100
and initial quality 1: fuel is first brought down to 5 through
`searchLoop_fuel_stable`, then the five iterations are computed. -/
theorem searchLoop_encC1_eval :
    searchLoop encC1 100 (searchFuel 1) (1/10) 1 (1, 200) =
      ((41/320, 50),
       [(11/20, 50), (13/40, 50), (17/80, 50), (5/32, 50), (41/320, 50)]) := by
  have h18 : searchFuel 1 = 5 + 13 := by
    norm_num [searchFuel]
    rfl
  rw [h18, searchLoop_fuel_stable encC1 100 5 13 (1/10) 1 (1, 200) (by norm_num)]
  norm_num [searchLoop, encC1]

/-! ## Claim theorems: compression quality search -/

/-- C4: the quality binary search terminates for every encoder behaviour and
every initial quality `q0 ∈ [0.1, 1]`: the loop runs only while
`maxQuality - minQuality > 0.05` and each iteration halves the interval, so
for every `k` with `(q0 - 0.1) ≤ 0.05 · 2^k` (i.e. every
`k ≥ ⌈log₂((q0 - 0.1)/0.05)⌉`), `k` iterations already yield the loop's
final result — additional fuel changes nothing. -/
theorem searchLoop_terminates_bounded (enc : ℚ → ℕ) (tgt : ℕ) (q0 : ℚ)
    (best : ℚ × ℕ) (k extra : ℕ)
    (h1 : 1/10 ≤ q0) (h2 : q0 ≤ 1) (h3 : q0 - 1/10 ≤ (1/20) * 2 ^ k) :
    searchLoop enc tgt (k + extra) (1/10) q0 best =
      searchLoop enc tgt k (1/10) q0 best :=
  searchLoop_fuel_stable enc tgt k extra (1/10) q0 best h3

/-- Witness for C4: for `q0 = 1`, `k = 5` iterations suffice
(`0.9 ≤ 0.05 · 2^5 = 1.6`); running with fuel 8 gives the same result. -/
theorem searchLoop_terminates_bounded_witness :
    ((1 : ℚ)/10 ≤ 1 ∧ (1 : ℚ) ≤ 1 ∧ (1 : ℚ) - 1/10 ≤ (1/20) * 2 ^ 5) ∧
    searchLoop encC1 100 (5 + 3) (1/10) 1 (1, 200) =
      searchLoop encC1 100 5 (1/10) 1 (1, 200) :=
  ⟨⟨by norm_num, by norm_num, by norm_num⟩,
   searchLoop_terminates_bounded encC1 100 1 (1, 200) 5 3
     (by norm_num) (by norm_num) (by norm_num)⟩

/-- C1 (amended): when the first encode exceeds the ceiling, the binary
search does *not* return the highest-quality fitting candidate it
encountered; it returns the most recently recorded fit, whose quality is at
most that of **every** fitting candidate in its encode trace (each recorded
fit moves the upper bound down, so successive fits have strictly lower
quality).  Whenever any traced encode fits, the returned best is itself a
fitting entry of the trace, and its quality is the lowest among the fitting
entries. -/
theorem searchLoop_returns_lowest_fit (enc : ℚ → ℕ) (tgt fuel : ℕ)
    (minQ maxQ : ℚ) (best p : ℚ × ℕ)
    (hp : p ∈ (searchLoop enc tgt fuel minQ maxQ best).2)
    (hfit : p.2 ≤ tgt) :
    (searchLoop enc tgt fuel minQ maxQ best).1 ∈
        (searchLoop enc tgt fuel minQ maxQ best).2 ∧
      (searchLoop enc tgt fuel minQ maxQ best).1.2 ≤ tgt ∧
      (searchLoop enc tgt fuel minQ maxQ best).1.1 ≤ p.1 :=
  ⟨(searchLoop_best_fits enc tgt fuel minQ maxQ best p hp hfit).1,
   (searchLoop_best_fits enc tgt fuel minQ maxQ best p hp hfit).2,
   searchLoop_best_le_fits enc tgt fuel minQ maxQ best p hp hfit⟩

/-- Witness for C1 (amended), on the concrete encoder `encC1` with ceiling
100 and initial quality 1 (exactly the call `iterateCompression` makes
after its first encode of 200 bytes misses). -/
theorem searchLoop_returns_lowest_fit_witness :
    (((11 : ℚ)/20, (50 : ℕ)) ∈
        (searchLoop encC1 100 (searchFuel 1) (1/10) 1 (1, 200)).2 ∧
      (50 : ℕ) ≤ 100) ∧
    ((searchLoop encC1 100 (searchFuel 1) (1/10) 1 (1, 200)).1 ∈
        (searchLoop encC1 100 (searchFuel 1) (1/10) 1 (1, 200)).2 ∧
      (searchLoop encC1 100 (searchFuel 1) (1/10) 1 (1, 200)).1.2 ≤ 100 ∧
      (searchLoop encC1 100 (searchFuel 1) (1/10) 1 (1, 200)).1.1 ≤ 11/20) :=
  ⟨⟨by rw [searchLoop_encC1_eval]; simp, by norm_num⟩,
   searchLoop_returns_lowest_fit encC1 100 (searchFuel 1) (1/10) 1 (1, 200)
     ((11 : ℚ)/20, (50 : ℕ)) (by rw [searchLoop_encC1_eval]; simp) (by norm_num)⟩

/-- C1 counterexample: with encoder `encC1` (≤ 0.55 → 50 bytes,
else 200 bytes), ceiling 100 and initial quality 1, the first encode is 200
and misses; the search's trace contains the fitting candidate of quality
0.55, yet the returned best quality is 41/320 ≈ 0.128 < 0.55 — the search
returns the lowest-quality fit it found, not the highest-quality one — and
`iterateCompression` hands back that low-quality 50-byte blob. -/
theorem searchLoop_not_highest_fit_counterexample :
    encC1 1 = 200 ∧ 100 < 200 ∧
    ((11 : ℚ)/20, (50 : ℕ)) ∈
        (searchLoop encC1 100 (searchFuel 1) (1/10) 1 (1, 200)).2 ∧
    (50 : ℕ) ≤ 100 ∧
    (searchLoop encC1 100 (searchFuel 1) (1/10) 1 (1, 200)).1.1 = 41/320 ∧
    ((41 : ℚ)/320) < 11/20 ∧
    iterateCompression encC1Full 800 600 100 1 = 50 := by
  refine ⟨by norm_num [encC1], by norm_num, ?_, by norm_num, ?_, by norm_num, ?_⟩
  · rw [searchLoop_encC1_eval]
    simp
  · rw [searchLoop_encC1_eval]
  · simp only [iterateCompression]
    have henc : encC1Full 800 600 = encC1 := rfl
    rw [henc]
    have h200 : encC1 1 = 200 := by norm_num [encC1]
    rw [h200]
    rw [searchLoop_encC1_eval]
    norm_num

/-! ## Lemmas about the downscale fallback loop -/

/-- Fuel stability for `resizeLoop`: once `scale · 0.9^fuel ≤ 0.3`, more
fuel changes nothing — the JS `while (scale > 0.3)` loop terminates within
`fuel` iterations. -/
theorem resizeLoop_fuel_stable (enc : Enc) (tgt : ℕ) (q : ℚ) :
    ∀ (fuel extra : ℕ) (w h : ℤ) (scale : ℚ),
      scale * (9/10) ^ fuel ≤ 3/10 →
      resizeLoop enc tgt q (fuel + extra) w h scale =
        resizeLoop enc tgt q fuel w h scale := by
  intro fuel
  induction fuel with
  | zero =>
    intro extra w h scale hsc
    have hg : ¬ (scale > 3/10) := by
      push_neg
      simpa using hsc
    cases extra with
    | zero => rfl
    | succ e =>
      rw [Nat.zero_add]
      simp only [resizeLoop]
      rw [if_neg hg]
  | succ n ih =>
    intro extra w h scale hsc
    rw [show n + 1 + extra = (n + extra) + 1 from by omega]
    by_cases hg : scale > 3/10
    · simp only [resizeLoop, if_pos hg]
      by_cases hs : enc (round ((w : ℚ) * scale)) (round ((h : ℚ) * scale)) q ≤ tgt
      · simp only [if_pos hs]
      · simp only [if_neg hs]
        have hsc' : (scale * (9/10)) * (9/10) ^ n ≤ 3/10 := by
          rw [pow_succ] at hsc
          calc (scale * (9/10)) * (9/10) ^ n = scale * ((9/10) ^ n * (9/10)) := by ring
          _ ≤ 3/10 := hsc
        rw [ih extra (round ((w : ℚ) * scale)) (round ((h : ℚ) * scale))
          (scale * (9/10)) hsc']
    · simp only [resizeLoop]
      rw [if_neg hg, if_neg hg]

/-- The first entry of a `resizeLoop` trace is the current canvas scaled by
the current factor. -/
theorem resizeLoop_first (enc : Enc) (tgt : ℕ) (q : ℚ) (fuel : ℕ) (w h : ℤ)
    (scale : ℚ) (p : ℤ × ℤ × ℕ)
    (hp : (resizeLoop enc tgt q fuel w h scale).2.get? 0 = some p) :
    p.1 = round ((w : ℚ) * scale) ∧ p.2.1 = round ((h : ℚ) * scale) := by
  cases fuel with
  | zero => simp [resizeLoop] at hp
  | succ n =>
    by_cases hg : scale > 3/10
    · simp only [resizeLoop, if_pos hg] at hp
      split_ifs at hp with hs <;>
      · simp only [List.get?_cons_zero, Option.some.injEq] at hp
        rw [← hp]
        exact ⟨rfl, rfl⟩
    · simp only [resizeLoop] at hp
      rw [if_neg hg] at hp
      simp at hp

/-- Consecutive trace entries of `resizeLoop`: the `(k+1)`-st canvas is the
`k`-th canvas multiplied by the *decayed* factor `scale · 0.9^(k+1)` — the
shrink compounds instead of staying a fixed 0.9 of the previous step. -/
theorem resizeLoop_step (enc : Enc) (tgt : ℕ) (q : ℚ) :
    ∀ (fuel : ℕ) (w h : ℤ) (scale : ℚ) (k : ℕ) (p p' : ℤ × ℤ × ℕ),
      (resizeLoop enc tgt q fuel w h scale).2.get? k = some p →
      (resizeLoop enc tgt q fuel w h scale).2.get? (k + 1) = some p' →
      p'.1 = round ((p.1 : ℚ) * (scale * (9/10) ^ (k + 1))) ∧
      p'.2.1 = round ((p.2.1 : ℚ) * (scale * (9/10) ^ (k + 1))) := by
  intro fuel
  induction fuel with
  | zero =>
    intro w h scale k p p' hp hp'
    simp [resizeLoop] at hp
  | succ n ih =>
    intro w h scale k p p' hp hp'
    by_cases hg : scale > 3/10
    · simp only [resizeLoop, if_pos hg] at hp hp'
      by_cases hs : enc (round ((w : ℚ) * scale)) (round ((h : ℚ) * scale)) q ≤ tgt
      · simp only [if_pos hs] at hp'
        rcases k with _ | k <;> simp at hp'
      · simp only [if_neg hs] at hp hp'
        rcases k with _ | k
        · simp only [List.get?_cons_zero, Option.some.injEq] at hp
          rw [List.get?_cons_succ] at hp'
          have hfirst := resizeLoop_first enc tgt q n _ _ _ p' hp'
          rw [← hp]
          simpa [pow_one] using hfirst
        · rw [List.get?_cons_succ] at hp hp'
          have := ih _ _ (scale * (9/10)) k p p' hp hp'
          constructor
          · rw [this.1]
            congr 1
            ring
          · rw [this.2]
            congr 1
            ring
    · simp only [resizeLoop] at hp
      rw [if_neg hg] at hp
      simp at hp

/-- The value `resizeLoop` returns: the first traced re-encode that fits,
and otherwise the most-downscaled canvas re-encoded at floor quality 0.1. -/
theorem resizeLoop_result (enc : Enc) (tgt : ℕ) (q : ℚ) :
    ∀ (fuel : ℕ) (w h : ℤ) (scale : ℚ),
      (∀ p, (resizeLoop enc tgt q fuel w h scale).2.find? (fitsTarget tgt) = some p →
        (resizeLoop enc tgt q fuel w h scale).1 = p.2.2) ∧
      ((resizeLoop enc tgt q fuel w h scale).2.find? (fitsTarget tgt) = none →
        (resizeLoop enc tgt q fuel w h scale).1 =
          enc (((resizeLoop enc tgt q fuel w h scale).2.getLast?.elim (w, h)
              fun p => (p.1, p.2.1)).1)
            (((resizeLoop enc tgt q fuel w h scale).2.getLast?.elim (w, h)
              fun p => (p.1, p.2.1)).2) (1/10)) := by
  intro fuel
  induction fuel with
  | zero =>
    intro w h scale
    constructor
    · intro p hp
      simp [resizeLoop] at hp
    · intro _
      simp [resizeLoop]
  | succ n ih =>
    intro w h scale
    by_cases hg : scale > 3/10
    · by_cases hs : enc (round ((w : ℚ) * scale)) (round ((h : ℚ) * scale)) q ≤ tgt
      · simp only [resizeLoop, if_pos hg, if_pos hs]
        constructor
        · intro p hp
          have hfit : fitsTarget tgt (round ((w : ℚ) * scale),
              round ((h : ℚ) * scale),
              enc (round ((w : ℚ) * scale)) (round ((h : ℚ) * scale)) q) = true := by
            simpa [fitsTarget] using hs
          rw [List.find?_cons_of_pos _ hfit] at hp
          simp only [Option.some.injEq] at hp
          rw [← hp]
        · intro hnone
          exfalso
          have hfit : fitsTarget tgt (round ((w : ℚ) * scale),
              round ((h : ℚ) * scale),
              enc (round ((w : ℚ) * scale)) (round ((h : ℚ) * scale)) q) = true := by
            simpa [fitsTarget] using hs
          rw [List.find?_cons_of_pos _ hfit] at hnone
          exact Option.noConfusion hnone
      · simp only [resizeLoop, if_pos hg, if_neg hs]
        have hnofit : fitsTarget tgt (round ((w : ℚ) * scale),
            round ((h : ℚ) * scale),
            enc (round ((w : ℚ) * scale)) (round ((h : ℚ) * scale)) q) = false := by
          simpa [fitsTarget] using hs
        constructor
        · intro p hp
          rw [List.find?_cons_of_neg _ (by simp [hnofit])] at hp
          exact (ih (round ((w : ℚ) * scale)) (round ((h : ℚ) * scale))
            (scale * (9/10))).1 p hp
        · intro hnone
          rw [List.find?_cons_of_neg _ (by simp [hnofit])] at hnone
          have hrec := (ih (round ((w : ℚ) * scale)) (round ((h : ℚ) * scale))
            (scale * (9/10))).2 hnone
          rw [hrec]
          cases hlast : (resizeLoop enc tgt q n (round ((w : ℚ) * scale))
              (round ((h : ℚ) * scale)) (scale * (9/10))).2 with
          | nil => simp [hlast]
          | cons x xs =>
            rcases hxl : (x :: xs).getLast? with _ | y
            · rw [List.getLast?_eq_none_iff] at hxl
              exact List.noConfusion hxl
            · simp [hlast, hxl]
    · simp only [resizeLoop]
      rw [if_neg hg]
      constructor
      · intro p hp
        simp at hp
      · intro _
        simp
/-- When no re-encode fits, the number of re-encodes the fallback performs
is determined by the scale sequence alone. -/
theorem resizeLoop_length (enc : Enc) (tgt : ℕ) (q : ℚ) :
    ∀ (fuel : ℕ) (w h : ℤ) (scale : ℚ),
      (resizeLoop enc tgt q fuel w h scale).2.find? (fitsTarget tgt) = none →
      (resizeLoop enc tgt q fuel w h scale).2.length = scaleLoopCount fuel scale := by
  intro fuel
  induction fuel with
  | zero =>
    intro w h scale _
    simp [resizeLoop, scaleLoopCount]
  | succ n ih =>
    intro w h scale hnone
    by_cases hg : scale > 3/10
    · by_cases hs : enc (round ((w : ℚ) * scale)) (round ((h : ℚ) * scale)) q ≤ tgt
      · exfalso
        simp only [resizeLoop, if_pos hg, if_pos hs] at hnone
        have hfit : fitsTarget tgt (round ((w : ℚ) * scale),
            round ((h : ℚ) * scale),
            enc (round ((w : ℚ) * scale)) (round ((h : ℚ) * scale)) q) = true := by
          simpa [fitsTarget] using hs
        rw [List.find?_cons_of_pos _ hfit] at hnone
        exact Option.noConfusion hnone
      · simp only [resizeLoop, if_pos hg, if_neg hs] at hnone ⊢
        have hnofit : fitsTarget tgt (round ((w : ℚ) * scale),
            round ((h : ℚ) * scale),
            enc (round ((w : ℚ) * scale)) (round ((h : ℚ) * scale)) q) = false := by
          simpa [fitsTarget] using hs
        rw [List.find?_cons_of_neg _ (by simp [hnofit])] at hnone
        simp only [List.length_cons, scaleLoopCount, if_pos hg]
        rw [ih _ _ (scale * (9/10)) hnone]
    · simp only [resizeLoop, scaleLoopCount] at hnone ⊢
      rw [if_neg hg] at hnone ⊢
      rw [if_neg hg]
      simp

/-- The scale sequence 0.9, 0.81, … stays above 0.3 for exactly 11 steps. -/
theorem scaleLoopCount_eval : scaleLoopCount 12 (9/10) = 11 := by
  norm_num [scaleLoopCount]

/-- C2 (amended): when the quality search records no fitting blob, the
compressor falls back to `compressByResizing`, which re-encodes a
progressively shrunk canvas; but the per-step shrink is *not* a fixed 0.9 —
the factor starts at 0.9 and is itself multiplied by 0.9 after every step
(consecutive canvases satisfy `w(k+1) = round(w(k) · 0.9^(k+2))`), and the
`scale > 0.3` guard bounds the decaying *factor*, not the cumulative result
scale (which falls far below 0.3 of the original).  The loop performs
exactly 11 re-encodes when none fits; it returns the first re-encode under
the ceiling, else the most-downscaled canvas re-encoded at floor quality
0.1 — always a value, never an error (any fuel beyond 12 changes
nothing). -/
theorem compressByResizing_fallback (enc : Enc) (tgt : ℕ) (q : ℚ) (w h : ℤ) :
    (∀ p, (resizeLoop enc tgt q 12 w h (9/10)).2.find? (fitsTarget tgt) = some p →
      compressByResizing enc w h tgt q = p.2.2) ∧
    ((resizeLoop enc tgt q 12 w h (9/10)).2.find? (fitsTarget tgt) = none →
      compressByResizing enc w h tgt q =
        enc (((resizeLoop enc tgt q 12 w h (9/10)).2.getLast?.elim (w, h)
            fun p => (p.1, p.2.1)).1)
          (((resizeLoop enc tgt q 12 w h (9/10)).2.getLast?.elim (w, h)
            fun p => (p.1, p.2.1)).2) (1/10) ∧
      (resizeLoop enc tgt q 12 w h (9/10)).2.length = 11) ∧
    (∀ k p p', (resizeLoop enc tgt q 12 w h (9/10)).2.get? k = some p →
      (resizeLoop enc tgt q 12 w h (9/10)).2.get? (k + 1) = some p' →
      p'.1 = round ((p.1 : ℚ) * ((9/10) * (9/10) ^ (k + 1))) ∧
      p'.2.1 = round ((p.2.1 : ℚ) * ((9/10) * (9/10) ^ (k + 1)))) ∧
    (∀ extra, resizeLoop enc tgt q (12 + extra) w h (9/10) =
      resizeLoop enc tgt q 12 w h (9/10)) := by
  refine ⟨?_, ?_, ?_, ?_⟩
  · exact fun p hp => (resizeLoop_result enc tgt q 12 w h (9/10)).1 p hp
  · intro hnone
    refine ⟨(resizeLoop_result enc tgt q 12 w h (9/10)).2 hnone, ?_⟩
    rw [resizeLoop_length enc tgt q 12 w h (9/10) hnone, scaleLoopCount_eval]
  · exact fun k p p' hp hp' =>
      resizeLoop_step enc tgt q 12 w h (9/10) k p p' hp hp'
  · intro extra
    exact resizeLoop_fuel_stable enc tgt q 12 extra w h (9/10) (by norm_num)

/-- C2 counterexample: with an encoder that never fits and a 1000×1000
canvas, the re-encoded widths are 900, 729, 531, 348, 205, 109, 52, 22, 9,
3, 1.  The second step multiplies 900 by 0.81, not by the claimed fixed
0.9 (which would give 810), and the loop re-encodes canvases as small as
1×1 — far below 0.3 of the original 1000 — before returning the
floor-quality fallback value. -/
theorem compressByResizing_schedule_counterexample :
    (resizeLoop encNeverFits 0 (1/2) 12 1000 1000 (9/10)).2.map (fun p => p.1) =
      [900, 729, 531, 348, 205, 109, 52, 22, 9, 3, 1] ∧
    (729 : ℤ) ≠ 810 ∧
    (1 : ℚ) < (3/10) * 1000 ∧
    compressByResizing encNeverFits 1000 1000 0 (1/2) = 1000000 := by
  refine ⟨?_, by norm_num, by norm_num, ?_⟩
  · norm_num [resizeLoop, encNeverFits, round_eq]
  · norm_num [compressByResizing, resizeLoop, encNeverFits, round_eq]

/-! ## Lemmas about the batch loop -/

theorem batchRun_length (process : α → Except ε β) (files : List α) :
    (batchRun process files).1.length + (batchRun process files).2.length =
      files.length := by
  induction files with
  | nil => rfl
  | cons f fs ih =>
    cases hf : process f with
    | ok b =>
      simp only [batchRun, hf, List.length_cons]
      omega
    | error e =>
      simp only [batchRun, hf, List.length_cons]
      omega

theorem batchRun_count [DecidableEq α] (process : α → Except ε β)
    (files : List α) (f : α) :
    ((batchRun process files).1.map Prod.fst).count f +
      ((batchRun process files).2.map Prod.fst).count f = files.count f := by
  induction files with
  | nil => rfl
  | cons g fs ih =>
    by_cases hgf : f = g
    · subst hgf
      cases hg : process f with
      | ok b =>
        simp only [batchRun, hg, List.map_cons]
        simp [List.count_cons]
        omega
      | error e =>
        simp only [batchRun, hg, List.map_cons]
        simp [List.count_cons]
        omega
    · cases hg : process g with
      | ok b =>
        simp only [batchRun, hg, List.map_cons]
        simp [List.count_cons, Ne.symm hgf]
        omega
      | error e =>
        simp only [batchRun, hg, List.map_cons]
        simp [List.count_cons, Ne.symm hgf]
        omega

/-- C5: for every batch call, whatever the per-item outcomes, the returned
counts satisfy `success + failed = total` (`total` being the number of
input files), and every input file lands in exactly one of the results
list and the errors list (counted with multiplicity). -/
theorem compressImages_batch_invariant [DecidableEq α]
    (process : α → Except ε β) (files : List α) :
    (compressImages process files).success + (compressImages process files).failed =
      (compressImages process files).total ∧
    (compressImages process files).results.length +
      (compressImages process files).errors.length = files.length ∧
    (∀ f : α, ((compressImages process files).results.map Prod.fst).count f +
      ((compressImages process files).errors.map Prod.fst).count f =
        files.count f) :=
  ⟨batchRun_length process files, batchRun_length process files,
   fun f => batchRun_count process files f⟩

/-! ## Claim theorems: crop mapping -/

/-- Rounding an additive split can overshoot the total by at most one. -/
theorem round_add_round_le (a b S : ℚ) (hab : a + b ≤ S) :
    ((round a : ℚ)) + ((round b : ℚ)) ≤ S + 1 := by
  have ha := round_le_add_half a
  have hb := round_le_add_half b
  linarith

/-- A clamped move keeps a within-canvas crop box within the canvas: an
axis that would overflow keeps its old coordinate, so the invariant assumed
by `applyCropRect_bounds` is maintained by every drag. -/
theorem moveCropBox_preserves_in_canvas (cW cH : ℚ) (box : CropBox)
    (dx dy : ℚ) (hx : 0 ≤ box.x) (hy : 0 ≤ box.y)
    (hxw : box.x + box.width ≤ cW) (hyh : box.y + box.height ≤ cH) :
    0 ≤ (moveCropBox cW cH box dx dy).x ∧
    (moveCropBox cW cH box dx dy).x + (moveCropBox cW cH box dx dy).width ≤ cW ∧
    0 ≤ (moveCropBox cW cH box dx dy).y ∧
    (moveCropBox cW cH box dx dy).y + (moveCropBox cW cH box dx dy).height ≤ cH := by
  simp only [moveCropBox]
  refine ⟨?_, ?_, ?_, ?_⟩
  · split_ifs with h
    · exact h.1
    · exact hx
  · split_ifs with h
    · exact h.2
    · exact hxw
  · split_ifs with h
    · exact h.1
    · exact hy
  · split_ifs with h
    · exact h.2
    · exact hyh

/-- C6 (amended): for a crop box lying within the display canvas (the
invariant `moveCropBox` maintains) with positive display dimensions, the
mapped source rectangle has nonnegative origin, and each axis overruns the
source dimension by **at most one pixel**: `cropX + cropWidth ≤ sourceW + 1`
(and similarly for y).  Strict containment `≤ sourceW` fails because origin
and size are rounded independently — see the counterexample. -/
theorem applyCropRect_bounds (nW nH cW cH : ℕ) (box : CropBox)
    (hcW : 0 < cW) (hcH : 0 < cH)
    (hx : 0 ≤ box.x) (hy : 0 ≤ box.y)
    (hw : 0 ≤ box.width) (hh : 0 ≤ box.height)
    (hxw : box.x + box.width ≤ (cW : ℚ)) (hyh : box.y + box.height ≤ (cH : ℚ)) :
    0 ≤ (applyCropRect nW nH cW cH box).1 ∧
    0 ≤ (applyCropRect nW nH cW cH box).2.1 ∧
    (applyCropRect nW nH cW cH box).1 + (applyCropRect nW nH cW cH box).2.2.1 ≤
      (nW : ℤ) + 1 ∧
    (applyCropRect nW nH cW cH box).2.1 + (applyCropRect nW nH cW cH box).2.2.2 ≤
      (nH : ℤ) + 1 := by
  have hcWq : (0 : ℚ) < (cW : ℚ) := by exact_mod_cast hcW
  have hcHq : (0 : ℚ) < (cH : ℚ) := by exact_mod_cast hcH
  have hsX : (0 : ℚ) ≤ (nW : ℚ) / (cW : ℚ) := by positivity
  have hsY : (0 : ℚ) ≤ (nH : ℚ) / (cH : ℚ) := by positivity
  refine ⟨?_, ?_, ?_, ?_⟩
  · exact round_nonneg_of_nonneg (mul_nonneg hx hsX)
  · exact round_nonneg_of_nonneg (mul_nonneg hy hsY)
  · have hsplit : box.x * ((nW : ℚ) / (cW : ℚ)) + box.width * ((nW : ℚ) / (cW : ℚ)) ≤
        (nW : ℚ) := by
      have h1 : (box.x + box.width) * ((nW : ℚ) / (cW : ℚ)) ≤
          (cW : ℚ) * ((nW : ℚ) / (cW : ℚ)) :=
        mul_le_mul_of_nonneg_right hxw hsX
      have h2 : (cW : ℚ) * ((nW : ℚ) / (cW : ℚ)) = (nW : ℚ) := by
        field_simp
      nlinarith [h1, h2]
    have := round_add_round_le (box.x * ((nW : ℚ) / (cW : ℚ)))
      (box.width * ((nW : ℚ) / (cW : ℚ))) (nW : ℚ) hsplit
    have hcast : (((round (box.x * ((nW : ℚ) / (cW : ℚ))) +
        round (box.width * ((nW : ℚ) / (cW : ℚ)))) : ℤ) : ℚ) ≤
        (((nW : ℤ) + 1 : ℤ) : ℚ) := by
      push_cast
      linarith
    exact_mod_cast hcast
  · have hsplit : box.y * ((nH : ℚ) / (cH : ℚ)) + box.height * ((nH : ℚ) / (cH : ℚ)) ≤
        (nH : ℚ) := by
      have h1 : (box.y + box.height) * ((nH : ℚ) / (cH : ℚ)) ≤
          (cH : ℚ) * ((nH : ℚ) / (cH : ℚ)) :=
        mul_le_mul_of_nonneg_right hyh hsY
      have h2 : (cH : ℚ) * ((nH : ℚ) / (cH : ℚ)) = (nH : ℚ) := by
        field_simp
      nlinarith [h1, h2]
    have := round_add_round_le (box.y * ((nH : ℚ) / (cH : ℚ)))
      (box.height * ((nH : ℚ) / (cH : ℚ))) (nH : ℚ) hsplit
    have hcast : (((round (box.y * ((nH : ℚ) / (cH : ℚ))) +
        round (box.height * ((nH : ℚ) / (cH : ℚ)))) : ℤ) : ℚ) ≤
        (((nH : ℤ) + 1 : ℤ) : ℚ) := by
      push_cast
      linarith
    exact_mod_cast hcast

/-- Witness for C6 (amended): a 3×3 source shown on a 2×2 canvas with the
in-canvas box (1,1,1,1). -/
theorem applyCropRect_bounds_witness :
    ((0 : ℕ) < 2 ∧ (0 : ℚ) ≤ 1 ∧ (1 : ℚ) + 1 ≤ (2 : ℚ)) ∧
    (0 ≤ (applyCropRect 3 3 2 2 ⟨1, 1, 1, 1⟩).1 ∧
     0 ≤ (applyCropRect 3 3 2 2 ⟨1, 1, 1, 1⟩).2.1 ∧
     (applyCropRect 3 3 2 2 ⟨1, 1, 1, 1⟩).1 +
       (applyCropRect 3 3 2 2 ⟨1, 1, 1, 1⟩).2.2.1 ≤ (3 : ℤ) + 1 ∧
     (applyCropRect 3 3 2 2 ⟨1, 1, 1, 1⟩).2.1 +
       (applyCropRect 3 3 2 2 ⟨1, 1, 1, 1⟩).2.2.2 ≤ (3 : ℤ) + 1) :=
  ⟨⟨by norm_num, by norm_num, by norm_num⟩,
   applyCropRect_bounds 3 3 2 2 ⟨1, 1, 1, 1⟩ (by norm_num) (by norm_num)
     (by norm_num) (by norm_num) (by norm_num) (by norm_num) (by norm_num)
     (by norm_num)⟩

/-- C6 counterexample: source 3×3 displayed on a 2×2 canvas, crop box
(1,1,1,1) — fully inside the display canvas, so even reachable purely by
clamped moves — maps to `(2,2,2,2)`: `cropX + cropWidth = 4 > 3 =
sourceWidth`, violating the claimed containment in
`[0, sourceWidth] × [0, sourceHeight]`. -/
theorem applyCropRect_overflow_counterexample :
    ((0 : ℚ) ≤ 1 ∧ (1 : ℚ) + 1 ≤ (2 : ℚ)) ∧
    applyCropRect 3 3 2 2 ⟨1, 1, 1, 1⟩ = (2, 2, 2, 2) ∧
    ¬((2 : ℤ) + 2 ≤ 3) := by
  refine ⟨⟨by norm_num, by norm_num⟩, ?_, by norm_num⟩
  norm_num [applyCropRect, round_eq, Prod.ext_iff]

/-! ## Claim theorems: watermark anchors -/

/-- C7 (amended): for each of the five anchors, when the padding also
leaves room for the watermark (`p + w ≤ W` and `p + h ≤ H`, not merely
`w ≤ W`, `h ≤ H` as the claim had it), the computed origin keeps the
**text** watermark's box inside the canvas — the origin is a text baseline,
so the box is `[x, x+w] × [y-h, y]`.  The **image** watermark is drawn
*downward* from the same origin and its box `[x, x+w] × [y, y+h]` is *not*
contained (see the counterexample). -/
theorem calculatePosition_text_box_in_canvas
    (pos : WatermarkAnchor) (W H w h p : ℚ)
    (hw : 0 ≤ w) (hh : 0 ≤ h) (hp : 0 ≤ p)
    (hpw : p + w ≤ W) (hph : p + h ≤ H) :
    0 ≤ (calculatePosition W H w h pos p).1 ∧
    (calculatePosition W H w h pos p).1 + w ≤ W ∧
    0 ≤ (calculatePosition W H w h pos p).2 - h ∧
    (calculatePosition W H w h pos p).2 ≤ H := by
  cases pos <;>
    simp only [calculatePosition] <;>
    exact ⟨by linarith, by linarith, by linarith, by linarith⟩

/-- Witness for C7 (amended): a 20×10 text box at padding 5 on a 100×80
canvas, anchored top-right. -/
theorem calculatePosition_text_box_in_canvas_witness :
    ((0 : ℚ) ≤ 20 ∧ (0 : ℚ) ≤ 10 ∧ (0 : ℚ) ≤ 5 ∧
      (5 : ℚ) + 20 ≤ 100 ∧ (5 : ℚ) + 10 ≤ 80) ∧
    (0 ≤ (calculatePosition 100 80 20 10 .topRight 5).1 ∧
     (calculatePosition 100 80 20 10 .topRight 5).1 + 20 ≤ 100 ∧
     0 ≤ (calculatePosition 100 80 20 10 .topRight 5).2 - 10 ∧
     (calculatePosition 100 80 20 10 .topRight 5).2 ≤ 80) :=
  ⟨⟨by norm_num, by norm_num, by norm_num, by norm_num, by norm_num⟩,
   calculatePosition_text_box_in_canvas .topRight 100 80 20 10 5
     (by norm_num) (by norm_num) (by norm_num) (by norm_num) (by norm_num)⟩

/-- C7 counterexample: an image watermark of natural size 40×40 on a
100×100 canvas, anchor `bottom-left`, padding 0 — padding ≥ 0 and watermark
(scaled to 25×25) no larger than the canvas, so the claim's hypotheses
hold.  `addImageWatermark` anchors it at origin (0, 100) and draws
downward: the drawn box reaches `y + h = 125 > 100`, leaving the canvas. -/
theorem imageWatermark_escapes_canvas_counterexample :
    imageWatermarkRect 100 100 40 40 .bottomLeft 0 = (0, 100, 25, 25) ∧
    (0 : ℚ) ≤ 0 ∧ (25 : ℚ) ≤ 100 ∧
    ¬((100 : ℚ) + 25 ≤ 100) := by
  refine ⟨?_, le_refl 0, by norm_num, by norm_num⟩
  norm_num [imageWatermarkRect, imageWatermarkSize, calculatePosition, Prod.ext_iff]

/-! ## Claim theorems: GIF frames -/

/-- C8: the GIF utility computes `frameCount = ⌈naturalHeight /
naturalWidth⌉` (equal to the natural-number ceiling division
`(h + w - 1) / w`), `getGIFInfo` reports the same count, extraction
produces exactly `frameCount` square frames, and a 100×300 input yields
`frameCount = 3` with 3 extracted frames. -/
theorem gif_frameCount_spec (w h : ℕ) (hw : 0 < w) :
    gifFrameCount w h = (((h + w - 1) / w : ℕ) : ℤ) ∧
    (extractFrames w h).length = ((h + w - 1) / w : ℕ) ∧
    (getGIFInfo w h).frameCount = gifFrameCount w h ∧
    gifFrameCount 100 300 = 3 ∧
    (extractFrames 100 300).length = 3 := by
  have hwq : (0 : ℚ) < (w : ℚ) := by exact_mod_cast hw
  have hdm := Nat.div_add_mod (h + w - 1) w
  have hml := Nat.mod_lt (h + w - 1) hw
  set k := (h + w - 1) / w with hk
  have hub : h ≤ w * k := by omega
  have hlb : w * k < h + w := by omega
  have hubq : (h : ℚ) ≤ (w : ℚ) * (k : ℚ) := by exact_mod_cast hub
  have hlbq : (w : ℚ) * (k : ℚ) < (h : ℚ) + (w : ℚ) := by exact_mod_cast hlb
  have hceil : gifFrameCount w h = (k : ℤ) := by
    unfold gifFrameCount
    rw [Int.ceil_eq_iff]
    constructor
    · rw [lt_div_iff hwq]
      push_cast
      nlinarith [hlbq]
    · rw [div_le_iff hwq]
      push_cast
      nlinarith [hubq]
  have hcount : gifFrameCount 100 300 = 3 := by
    norm_num [gifFrameCount]
  have hlen : (extractFrames w h).length = k := by
    simp only [extractFrames, List.length_map, List.length_range, hceil]
    exact Int.toNat_natCast k
  refine ⟨hceil, hlen, rfl, hcount, ?_⟩
  simp only [extractFrames, List.length_map, List.length_range, hcount]
  rfl

/-- Witness for C8 at the spec's scenario: a 100×300 GIF. -/
theorem gif_frameCount_spec_witness :
    (0 < 100) ∧
    (gifFrameCount 100 300 = (((300 + 100 - 1) / 100 : ℕ) : ℤ) ∧
     (extractFrames 100 300).length = ((300 + 100 - 1) / 100 : ℕ) ∧
     (getGIFInfo 100 300).frameCount = gifFrameCount 100 300 ∧
     gifFrameCount 100 300 = 3 ∧
     (extractFrames 100 300).length = 3) :=
  ⟨by norm_num, gif_frameCount_spec 100 300 (by norm_num)⟩

end ImageConversion
